import Mathlib

/-!
Shallow embedding of the `record-hours` time-tracking tool
(`src/main.rs`, `src/format.rs`) and proofs about its core logic:
the punch reconciler (`Record::insert`), the interval reconstructor
(`get_times`), the reporting routine (`show`), the duration renderers
(`MyDuration`, `DecimalDuration`) and the template formatter
(`format.rs::Formatter`).

Modelling conventions:
* `Time` (Rust `Time(NaiveTime)`) is the number of seconds since
  midnight, a `Nat`.  All comparisons in the program are between punches
  of the same calendar day: `Record::insert` builds both `NaiveDateTime`
  values from the same `self.date`, so `now <= last.time + tolerance`
  over `NaiveDateTime` is equivalent to comparing seconds-in-day plus
  the tolerance without any wrap-around (`NaiveDateTime + Duration`
  continues onto the next day on the time line).
* chrono `Duration` values (differences of times, sums of interval
  lengths) are `Int` numbers of seconds.  Rust `i64` division and
  remainder truncate toward zero, which is `Int.tdiv` / `Int.tmod`.
* `BTreeMap` is modelled as an association list; the only map
  operations the program uses are `entry().or_default()` (update or
  append) and `get` (lookup).
-/

namespace RecordHours

/-- seconds since midnight; embeds the Rust `Time(NaiveTime)` wrapper. -/
abbrev Time := Nat

/-- two-variant punch kind, Rust `enum TimeStampType { Start, End }`. -/
inductive TimeStampType where
  | Start
  | End
deriving DecidableEq, Repr

/-- one punch record, Rust `struct TimeStamp { typ, time, tolerance }`
(`tolerance` is in seconds). -/
structure TimeStamp where
  typ : TimeStampType
  time : Time
  tolerance : Nat
deriving DecidableEq, Repr

/-- Rust `TimeStamp::is_start`. -/
def TimeStamp.is_start (ts : TimeStamp) : Bool :=
  ts.typ = TimeStampType.Start

/-- Rust `TimeStamp::is_end`. -/
def TimeStamp.is_end (ts : TimeStamp) : Bool :=
  ts.typ = TimeStampType.End

/-- the per-day core of Rust `Record::insert`, acting on one day entry
(`entry : &mut Vec<TimeStamp>`) with the current time-of-day `now`.
Both `NaiveDateTime`s in the source are built from the same date, so the
debounce test reduces to seconds-in-day arithmetic. -/
def insertDay (now : Time) (entry : List TimeStamp) : List TimeStamp :=
  match entry.getLast? with
  | some last =>
    if last.is_end ∧ now ≤ last.time + last.tolerance then
      entry.dropLast ++ [{ last with time := now }]
    else
      entry ++ [⟨if (entry.getLast?).any TimeStamp.is_start then .End else .Start,
                 now, 60 * 15⟩]
  | none =>
    entry ++ [⟨if (entry.getLast?).any TimeStamp.is_start then .End else .Start,
               now, 60 * 15⟩]

/-- the punch kinds of a day log, in order. -/
def kinds (l : List TimeStamp) : List TimeStampType :=
  l.map TimeStamp.typ

/-- the opposite punch kind. -/
def TimeStampType.flip : TimeStampType → TimeStampType
  | .Start => .End
  | .End => .Start

/-- `alternatesFrom e ks` holds when `ks` is `e, e.flip, e, …`. -/
def alternatesFrom : TimeStampType → List TimeStampType → Bool
  | _, [] => true
  | e, k :: ks => k = e && alternatesFrom e.flip ks

/-- a day log alternates `Start, End, Start, End, …` (possibly ending on
either kind), the invariant of §3 of the design. -/
def alternating (l : List TimeStamp) : Bool :=
  alternatesFrom .Start (kinds l)

/-- a reconstructed closed work interval, Rust `struct Item`. -/
structure Item where
  start : Time
  stop : Time
deriving DecidableEq, Repr

/-- length of a closed interval in seconds, Rust `Item::duration`
(`(self.end.0 - self.start.0).num_seconds()`). -/
def Item.duration (it : Item) : Int :=
  (it.stop : Int) - (it.start : Int)

/-- Rust `iter.find(|x| x.is_start())` on a list iterator: the first
`Start` punch together with the rest of the iterator after it. -/
def findStart : List TimeStamp → Option (TimeStamp × List TimeStamp)
  | [] => none
  | x :: xs => if x.is_start then some (x, xs) else findStart xs

theorem findStart_length {l : List TimeStamp} {x : TimeStamp}
    {rest : List TimeStamp} (h : findStart l = some (x, rest)) :
    rest.length < l.length := by
  induction l with
  | nil => simp [findStart] at h
  | cons y ys ih =>
    by_cases hy : y.is_start
    · simp [findStart, hy] at h
      simp [h.2]
    · simp [findStart, hy] at h
      exact Nat.lt_trans (ih h) (by simp)

/-- the interval reconstructor, Rust `get_times` in `show`: walks the
punches after the first `Start`, with `start` holding the most recently
seen `Start` time. -/
def get_times : List TimeStamp → Time → List Item × Option Time
  | [], start => ([], some start)
  | head :: rest, start =>
    if head.is_start then
      get_times rest head.time
    else
      match h : findStart rest with
      | none => ([⟨start, head.time⟩], none)
      | some (next, rest2) =>
        let r := get_times rest2 next.time
        (⟨start, head.time⟩ :: r.1, r.2)
termination_by l _ => l.length
decreasing_by
  · simp +arith
  · exact Nat.lt_trans (findStart_length h) (by simp)

/-- whole hours of a span of `secs` seconds, chrono
`Duration::num_hours` (i64 division truncates toward zero). -/
def num_hours (secs : Int) : Int :=
  Int.tdiv secs 3600

/-- whole minutes of a span of `secs` seconds, chrono
`Duration::num_minutes` (i64 division truncates toward zero). -/
def num_minutes (secs : Int) : Int :=
  Int.tdiv secs 60

/-- human rendering of a span, Rust `impl Display for MyDuration`:
the hour part is skipped when `num_hours` is zero, and the minute part
is `num_minutes % 60` (Rust `%` on i64 is `Int.tmod`). -/
def MyDuration.render (secs : Int) : String :=
  (if num_hours secs ≠ 0 then toString (num_hours secs) ++ "h" else "")
    ++ toString (Int.tmod (num_minutes secs) 60) ++ "min"

/-- decimal rendering of a span, Rust `impl Display for DecimalDuration`:
`format!("{:.02}", num_minutes as f64 / 60.0)`.  The f64 quotient
printed to two fractional digits is modelled as the exact rational
`num_minutes / 60` rounded to the nearest multiple of `1/100` (the two
agree whenever the quotient is exactly representable, in particular at
every value the theorems below evaluate it on); the sign is printed in
front as Rust does. -/
def DecimalDuration.render (secs : Int) : String :=
  let m := num_minutes secs
  let cents : Int := Int.tdiv (m.natAbs * 100 * 2 + 60) 120
  (if m < 0 ∧ cents ≠ 0 then "-" else "")
    ++ toString (Int.tdiv cents 100) ++ "."
    ++ (if Int.tmod cents 100 < 10 then "0" else "")
    ++ toString (Int.tmod cents 100)

/-- left-pad a numeral to two digits, as chrono's `%H`/`%M`/`%m`/`%d`
format fields do. -/
def pad2 (n : Nat) : String :=
  if n < 10 then "0" ++ toString n else toString n

/-- left-pad a numeral to four digits, as chrono's `%Y` does for the
year range the tool handles. -/
def pad4 (n : Nat) : String :=
  if n < 10 then "000" ++ toString n
  else if n < 100 then "00" ++ toString n
  else if n < 1000 then "0" ++ toString n
  else toString n

/-- calendar date, Rust `Date(NaiveDate)`. -/
structure Date where
  year : Nat
  month : Nat
  day : Nat
deriving DecidableEq, Repr

/-- Rust `impl Display for Date` (the `NaiveDate` display,
`YYYY-MM-DD`). -/
def Date.render (d : Date) : String :=
  pad4 d.year ++ "-" ++ pad2 d.month ++ "-" ++ pad2 d.day

/-- Rust `impl Display for Time`: the stored time formatted `%H:%M`
(seconds truncated away). -/
def Time.render (t : Time) : String :=
  pad2 (t / 3600) ++ ":" ++ pad2 (t % 3600 / 60)

/-- the template formatter's state, Rust `format.rs::Formatter`. -/
structure Formatter where
  date : Date
  duration : Int
  format : String
  project : String

/-- expansion of one directive character after `%`, the arms of the
`match chars.next()` in `format.rs`; `none` is the `_ => Err` arm
(which also catches a `%` at the end of the template). -/
def Formatter.directive (self : Formatter) (c : Char) : Option (List Char) :=
  match c with
  | '%' => some ['%']
  | 'd' => some self.date.render.data
  | 'Y' => some (pad4 self.date.year).data
  | 'M' => some (pad2 self.date.month).data
  | 'D' => some (pad2 self.date.day).data
  | 't' => some (DecimalDuration.render self.duration).data
  | 'h' => some (toString (num_hours self.duration)).data
  | 'm' => some (toString (num_minutes self.duration)).data
  | 'P' => some self.project.data
  | _ => none

/-- the scanning loop of `impl Display for Formatter`, over the
template's characters; `Except.error ()` is `std::fmt::Error`. -/
def Formatter.fmtChars (self : Formatter) : List Char → Except Unit (List Char)
  | [] => .ok []
  | c :: rest =>
    if c ≠ '%' then
      (self.fmtChars rest).map (c :: ·)
    else
      match rest with
      | [] => .error ()
      | d :: rest2 =>
        match self.directive d with
        | some out => (self.fmtChars rest2).map (out ++ ·)
        | none => .error ()

/-- Rust `impl Display for Formatter` as a whole: render the template
or fail with a formatting error. -/
def Formatter.render (self : Formatter) : Except Unit String :=
  (self.fmtChars self.format.data).map List.asString

/-- per-project punch history, Rust `Project` (a `BTreeMap<Date,
Vec<TimeStamp>>`, modelled as its date-ascending entry list). -/
def Project := List (Date × List TimeStamp)

/-- the whole log, Rust `Log` (a `BTreeMap<String, Project>`, modelled
as an association list; `get` is `List.lookup`). -/
def Log := List (String × Project)

/-- `BTreeMap::entry(k).or_default()` followed by a mutation `f` of the
value: update the entry in place, or add a fresh default one. -/
def updateEntry {ν : Type} (k : String) (f : Option ν → ν) :
    List (String × ν) → List (String × ν)
  | [] => [(k, f none)]
  | (k2, v) :: rest =>
    if k = k2 then (k2, f (some v)) :: rest else (k2, v) :: updateEntry k f rest

/-- same update-or-default operation keyed by `Date`. -/
def updateEntryD {ν : Type} (k : Date) (f : Option ν → ν) :
    List (Date × ν) → List (Date × ν)
  | [] => [(k, f none)]
  | (k2, v) :: rest =>
    if k = k2 then (k2, f (some v)) :: rest else (k2, v) :: updateEntryD k f rest

/-- Rust `Record::insert`: drill down to today's entry of the project
(creating empty maps/vectors on the way) and run the per-day
reconciler. -/
def Record.insert (log : Log) (date : Date) (time : Time)
    (project : String) : Log :=
  updateEntry project
    (fun p => updateEntryD date
      (fun e => insertDay time (e.getD [])) ((p.getD []) : Project)) log

/-- one day of report output, the body of the `for (date, day)` loop in
Rust `show`: the first component is the lines written to the sink, the
second the `log::warn!` notices.  A day with no `Start` punch at all is
skipped with the warning `"day {date} is present in {project} but was
empty"`. -/
def showDay (decimal : Bool) (project : String) (date : Date)
    (day : List TimeStamp) : List String × List String :=
  match findStart day with
  | none =>
    ([], ["day " ++ date.render ++ " is present in " ++ project
           ++ " but was empty"])
  | some (first, rest) =>
    let times := get_times rest first.time
    let duration : Int := (times.1.map Item.duration).sum
    let dur := if decimal then DecimalDuration.render duration
               else MyDuration.render duration
    ((date.render ++ " (" ++ dur ++ "):")
       :: times.1.map (fun it => "  - " ++ it.start.render ++ " - "
                                   ++ it.stop.render)
       ++ (match times.2 with
           | some st => ["  - " ++ st.render ++ " - "]
           | none => []),
     [])

/-- the per-day loop of Rust `show` over a project's entries, gathering
output lines and warnings; skipped days contribute no lines. -/
def showProject (decimal : Bool) (project : String) :
    Project → List String × List String
  | [] => ([], [])
  | (date, day) :: rest =>
    let here := showDay decimal project date day
    let further := showProject decimal project rest
    (here.1 ++ further.1, here.2 ++ further.2)

/-- Rust `show` after the input is parsed: look the project up, failing
with the `anyhow!` message when it is absent (before any output line is
produced), then walk its days.  The result carries the output lines and
the warnings. -/
def show' (log : Log) (project : String) (decimal : Bool) :
    Except String (List String × List String) :=
  match log.lookup project with
  | none => .error ("project " ++ project ++ " is not present in log file")
  | some proj => .ok (showProject decimal project proj)

/-- state of the snapshot file on disk, as the two `main` branches see
it: either the path does not exist, or it holds bytes whose emptiness
and serde parse are abstracted in `Buf`. -/
structure Buf where
  isEmpty : Bool
  parsed : Except String Log

/-- the snapshot file: `absent` makes `path.exists()` false and
`File::open` fail. -/
inductive FileContent where
  | absent
  | present (buf : Buf)

/-- Rust `Record::open` up to the clock read: an empty input yields the
default (empty) log with the `log::warn!("file was empty, using
default")` notice, otherwise the serde parse result decides. -/
def Record.openFile (buf : Buf) : Except String (Log × List String) :=
  if buf.isEmpty then .ok (([] : Log), ["file was empty, using default"])
  else
    match buf.parsed with
    | .error e => .error e
    | .ok log => .ok (log, [])

/-- the `Commands::Record` arm of Rust `main`: when the path does not
exist, `Record::open(std::io::empty())` reads zero bytes; otherwise the
file's bytes are read.  On success the reconciler runs and the mutated
log (with the collected notices) is what `commit` writes back. -/
def mainRecord (fs : FileContent) (project : String) (date : Date)
    (time : Time) : Except String (Log × List String) :=
  let buf : Buf :=
    match fs with
    | .absent => ⟨true, .error "empty input"⟩
    | .present b => b
  match Record.openFile buf with
  | .error e => .error e
  | .ok (log, warns) => .ok (Record.insert log date time project, warns)

/-- the `Commands::Show` arm of Rust `main`: `File::open(path)?` fails
outright when the file is absent; otherwise `show` parses the bytes
(`context("input file was missing")` on parse failure) and reports. -/
def mainShow (fs : FileContent) (project : String) (decimal : Bool) :
    Except String (List String × List String) :=
  match fs with
  | .absent => .error "No such file or directory (os error 2)"
  | .present buf =>
    match buf.parsed with
    | .error e => .error ("input file was missing: " ++ e)
    | .ok log => show' log project decimal

/-! Reconciler theorems (claims C1, C2, C3). -/

/-- C1: reconciling over a non-empty day log whose last punch is an
`End`, at a time `now` with `now ≤ last.time + last.tolerance` (same-day
arithmetic), only moves the last punch's time to `now`; the log keeps
its length and no punch is appended. -/
theorem insertDay_debounce (entry : List TimeStamp) (last : TimeStamp)
    (now : Time) (hlast : entry.getLast? = some last)
    (hend : last.typ = TimeStampType.End)
    (htol : now ≤ last.time + last.tolerance) :
    insertDay now entry = entry.dropLast ++ [{ last with time := now }] ∧
      (insertDay now entry).length = entry.length := by
  have hne : entry ≠ [] := by intro he; subst he; simp at hlast
  have heq : insertDay now entry
      = entry.dropLast ++ [{ last with time := now }] := by
    simp [insertDay, hlast, TimeStamp.is_end, hend, htol]
  refine ⟨heq, ?_⟩
  rw [heq]
  have : 0 < entry.length := List.length_pos.mpr hne
  simp [List.length_dropLast]
  omega

/-- closed instance of `insertDay_debounce`. -/
theorem insertDay_debounce_witness :
    insertDay 900 [⟨.Start, 5, 900⟩, ⟨.End, 100, 900⟩]
      = [⟨.Start, 5, 900⟩, ⟨.End, 900, 900⟩] ∧
    (insertDay 900 [⟨.Start, 5, 900⟩, ⟨.End, 100, 900⟩]).length = 2 := by
  have h := insertDay_debounce [⟨.Start, 5, 900⟩, ⟨.End, 100, 900⟩]
    ⟨.End, 100, 900⟩ 900 (by decide) rfl (by decide)
  exact ⟨by simpa using h.1, by simpa using h.2⟩

/-- C2: when no debounce applies (empty log, last punch a `Start`, or
last punch an `End` whose tolerance window has passed), exactly one
punch is appended, with tolerance `900` seconds, of kind `End` when the
last punch is a `Start` and `Start` otherwise. -/
theorem insertDay_append (entry : List TimeStamp) (now : Time)
    (h : ∀ last, entry.getLast? = some last →
          last.typ = TimeStampType.End → last.time + last.tolerance < now) :
    insertDay now entry
      = entry ++ [⟨(match entry.getLast? with
                    | some l => if l.typ = TimeStampType.Start
                                then TimeStampType.End else TimeStampType.Start
                    | none => TimeStampType.Start), now, 900⟩] := by
  cases hl : entry.getLast? with
  | none => simp [insertDay, hl]
  | some last =>
    cases ht : last.typ with
    | Start =>
      have hnc : ¬ (last.is_end ∧ now ≤ last.time + last.tolerance) := by
        simp [TimeStamp.is_end, ht]
      simp [insertDay, hl, hnc, TimeStamp.is_start, ht]
    | End =>
      have h2 := h last hl ht
      have hnc : ¬ (last.is_end ∧ now ≤ last.time + last.tolerance) := by
        intro hc
        exact absurd hc.2 (Nat.not_le.mpr h2)
      simp [insertDay, hl, hnc, TimeStamp.is_start, ht]

/-- closed instances of `insertDay_append`: the empty log receives a
`Start`, a log ending in a `Start` receives an `End`, a log ending in
an expired `End` receives a `Start`. -/
theorem insertDay_append_witness :
    insertDay 5 [] = [⟨.Start, 5, 900⟩] ∧
    insertDay 100 [⟨.Start, 5, 900⟩]
      = [⟨.Start, 5, 900⟩, ⟨.End, 100, 900⟩] ∧
    insertDay 1001 [⟨.Start, 5, 900⟩, ⟨.End, 100, 900⟩]
      = [⟨.Start, 5, 900⟩, ⟨.End, 100, 900⟩, ⟨.Start, 1001, 900⟩] := by
  refine ⟨?_, ?_, ?_⟩
  · have h := insertDay_append [] 5 (by intro last hl _; simp at hl)
    simpa using h
  · have h := insertDay_append [⟨.Start, 5, 900⟩] 100
      (by intro last hl hend; simp at hl; rw [← hl] at hend; simp at hend)
    simpa using h
  · have h := insertDay_append [⟨.Start, 5, 900⟩, ⟨.End, 100, 900⟩] 1001
      (by intro last hl _; simp at hl; rw [← hl]; decide)
    simpa using h

/-- the kind the alternation invariant expects next, after the kinds
`ks` have been seen starting from expected kind `e`. -/
def nextKind (e : TimeStampType) (ks : List TimeStampType) : TimeStampType :=
  match ks.getLast? with
  | none => e
  | some kl => kl.flip

theorem alternatesFrom_snoc :
    ∀ (ks : List TimeStampType) (e : TimeStampType),
      alternatesFrom e ks = true →
      alternatesFrom e (ks ++ [nextKind e ks]) = true := by
  intro ks
  induction ks with
  | nil => intro e _; simp [alternatesFrom, nextKind]
  | cons k0 ks ih =>
    intro e h
    have h2 : k0 = e ∧ alternatesFrom e.flip ks = true := by
      simpa [alternatesFrom] using h
    obtain ⟨he, hrest⟩ := h2
    subst he
    have hnk : nextKind k0 (k0 :: ks) = nextKind k0.flip ks := by
      cases ks with
      | nil => simp [nextKind]
      | cons k1 ks2 =>
        cases hg : (k1 :: ks2).getLast? with
        | none => exact absurd (List.getLast?_eq_none_iff.mp hg) (by simp)
        | some kl => simp [nextKind, hg]
    rw [hnk]
    simpa [alternatesFrom] using ih k0.flip hrest

theorem insertDay_alt (entry : List TimeStamp) (now : Time)
    (h : alternating entry = true) :
    alternating (insertDay now entry) = true := by
  cases hl : entry.getLast? with
  | none =>
    have he : entry = [] := List.getLast?_eq_none_iff.mp hl
    subst he
    simp [insertDay, alternating, kinds, alternatesFrom]
  | some last =>
    by_cases hc : last.is_end ∧ now ≤ last.time + last.tolerance
    · have heq : insertDay now entry
          = entry.dropLast ++ [{ last with time := now }] := by
        simp [insertDay, hl, hc.1, hc.2]
      have hk : kinds (insertDay now entry) = kinds entry := by
        rw [heq]
        conv_rhs => rw [← List.dropLast_append_getLast? last hl]
        simp [kinds]
      simpa [alternating, hk] using h
    · have heq : insertDay now entry
          = entry ++ [⟨if last.is_start then TimeStampType.End
                       else TimeStampType.Start, now, 60 * 15⟩] := by
        simp [insertDay, hl, hc]
      have hflip : (if last.is_start then TimeStampType.End
                    else TimeStampType.Start) = last.typ.flip := by
        cases ht : last.typ <;> simp [TimeStamp.is_start, ht, TimeStampType.flip]
      have hnk : nextKind TimeStampType.Start (kinds entry) = last.typ.flip := by
        have : (kinds entry).getLast? = some last.typ := by
          simp [kinds, List.getLast?_map, hl]
        simp [nextKind, this]
      have := alternatesFrom_snoc (kinds entry) TimeStampType.Start h
      rw [hnk] at this
      simpa [alternating, heq, kinds, hflip] using this

/-- C3: every day log built from the empty log by repeated reconcile
calls alternates `Start, End, Start, End, …`, and one reconcile call
preserves that alternation on any log already satisfying it. -/
theorem reconcile_alternating :
    (∀ times : List Time,
        alternating (times.foldl (fun e t => insertDay t e) []) = true) ∧
    (∀ (entry : List TimeStamp) (now : Time),
        alternating entry = true → alternating (insertDay now entry) = true) := by
  have gen : ∀ (ts : List Time) (e : List TimeStamp), alternating e = true →
      alternating (ts.foldl (fun e t => insertDay t e) e) = true := by
    intro ts
    induction ts with
    | nil => intro e he; simpa using he
    | cons t ts ih =>
      intro e he
      exact ih (insertDay t e) (insertDay_alt e t he)
  exact ⟨fun times => gen times [] (by decide), insertDay_alt⟩

/-- closed instance of `reconcile_alternating`. -/
theorem reconcile_alternating_witness :
    alternating ([(9 : Time), 12, 13, 17].foldl (fun e t => insertDay t e) [])
        = true ∧
    alternating (insertDay 2000 [⟨.Start, 3, 900⟩]) = true :=
  ⟨reconcile_alternating.1 [9, 12, 13, 17],
   reconcile_alternating.2 [⟨.Start, 3, 900⟩] 2000 (by decide)⟩

/-! Interval reconstructor theorems (claims C4, C5). -/

theorem is_start_false_of_is_end {ts : TimeStamp} (h : ts.is_end = true) :
    ts.is_start = false := by
  cases ht : ts.typ
  · simp [TimeStamp.is_end, ht] at h
  · simp [TimeStamp.is_start, ht]

theorem get_times_nil (start : Time) : get_times [] start = ([], some start) := by
  simp [get_times]

theorem get_times_cons_start (head : TimeStamp) (rest : List TimeStamp)
    (start : Time) (h : head.is_start = true) :
    get_times (head :: rest) start = get_times rest head.time := by
  simp [get_times, h]

theorem get_times_cons_end_none (head : TimeStamp) (rest : List TimeStamp)
    (start : Time) (h : head.is_start = false) (hf : findStart rest = none) :
    get_times (head :: rest) start = ([⟨start, head.time⟩], none) := by
  simp only [get_times, h, Bool.false_eq_true, if_false]
  split
  · rfl
  · rename_i next rest2 heq
    rw [hf] at heq
    simp at heq

theorem get_times_cons_end_some (head next : TimeStamp)
    (rest rest2 : List TimeStamp) (start : Time)
    (h : head.is_start = false) (hf : findStart rest = some (next, rest2)) :
    get_times (head :: rest) start
      = (⟨start, head.time⟩ :: (get_times rest2 next.time).1,
         (get_times rest2 next.time).2) := by
  simp only [get_times, h, Bool.false_eq_true, if_false]
  split
  · rename_i heq
    rw [hf] at heq
    simp at heq
  · rename_i next2 rest3 heq
    rw [hf] at heq
    simp at heq
    obtain ⟨h1, h2⟩ := heq
    subst h1
    subst h2
    rfl

/-- C4: the reconstructor emits an interval on each `End` (its start
being the most recently seen `Start` time), skips forward to the next
`Start` after it (returning no trailing open time when none exists),
and reports the pending `start` as the trailing open time when the
punches run out; on `[Start@09:00, End@12:00, Start@13:00, End@17:00]`
the caller's `find` plus `get_times` produce exactly the two closed
intervals and no trailing open time, and on `[Start@09:00]` no closed
interval and trailing open time `09:00`. -/
theorem get_times_spec :
    (∀ start : Time, get_times [] start = ([], some start)) ∧
    (∀ (head : TimeStamp) (rest : List TimeStamp) (start : Time),
        head.is_start = true →
        get_times (head :: rest) start = get_times rest head.time) ∧
    (∀ (head : TimeStamp) (rest : List TimeStamp) (start : Time),
        head.is_end = true → findStart rest = none →
        get_times (head :: rest) start = ([⟨start, head.time⟩], none)) ∧
    (∀ (head next : TimeStamp) (rest rest2 : List TimeStamp) (start : Time),
        head.is_end = true → findStart rest = some (next, rest2) →
        get_times (head :: rest) start
          = (⟨start, head.time⟩ :: (get_times rest2 next.time).1,
             (get_times rest2 next.time).2)) ∧
    (findStart [⟨.Start, 9 * 3600, 900⟩, ⟨.End, 12 * 3600, 900⟩,
                ⟨.Start, 13 * 3600, 900⟩, ⟨.End, 17 * 3600, 900⟩]
       = some (⟨.Start, 9 * 3600, 900⟩,
               [⟨.End, 12 * 3600, 900⟩, ⟨.Start, 13 * 3600, 900⟩,
                ⟨.End, 17 * 3600, 900⟩]) ∧
     get_times [⟨.End, 12 * 3600, 900⟩, ⟨.Start, 13 * 3600, 900⟩,
                ⟨.End, 17 * 3600, 900⟩] (9 * 3600)
       = ([⟨9 * 3600, 12 * 3600⟩, ⟨13 * 3600, 17 * 3600⟩], none)) ∧
    (findStart [⟨.Start, 9 * 3600, 900⟩]
       = some (⟨.Start, 9 * 3600, 900⟩, []) ∧
     get_times [] (9 * 3600) = ([], some (9 * 3600))) := by
  refine ⟨get_times_nil, get_times_cons_start, ?_, ?_, ⟨?_, ?_⟩, ⟨?_, ?_⟩⟩
  · intro head rest start hend hf
    exact get_times_cons_end_none head rest start
      (is_start_false_of_is_end hend) hf
  · intro head next rest rest2 start hend hf
    exact get_times_cons_end_some head next rest rest2 start
      (is_start_false_of_is_end hend) hf
  · decide
  · simp [get_times, findStart, TimeStamp.is_start]
  · decide
  · simp [get_times]

/-- closed instances of `get_times_spec`. -/
theorem get_times_spec_witness :
    get_times [⟨.Start, 13, 900⟩] 9 = get_times [] 13 ∧
    get_times [⟨.End, 12, 900⟩] 9 = ([⟨9, 12⟩], none) ∧
    get_times [⟨.End, 12, 900⟩, ⟨.Start, 13, 900⟩] 9
      = (⟨9, 12⟩ :: (get_times [] 13).1, (get_times [] 13).2) := by
  refine ⟨?_, ?_, ?_⟩
  · exact get_times_spec.2.1 ⟨.Start, 13, 900⟩ [] 9 (by decide)
  · exact get_times_spec.2.2.1 ⟨.End, 12, 900⟩ [] 9 (by decide) (by decide)
  · exact get_times_spec.2.2.2.1 ⟨.End, 12, 900⟩ ⟨.Start, 13, 900⟩
      [⟨.Start, 13, 900⟩] [] 9 (by decide) (by decide)

theorem findStart_eq_none (day : List TimeStamp)
    (h : ∀ ts ∈ day, ts.is_start = false) : findStart day = none := by
  induction day with
  | nil => rfl
  | cons x xs ih =>
    have hx : x.is_start = false := h x (by simp)
    simp [findStart, hx]
    exact ih (fun ts hts => h ts (by simp [hts]))

/-- C5: a day's report skips leading `End` punches and starts
reconstruction at the first `Start` — `[End@08:00, Start@09:00,
End@10:00]` yields the single interval `(09:00, 10:00)` — while a day
with no `Start` punch at all produces no output lines, only the
low-severity notice, and the remaining days are still reported. -/
theorem show_day_spec :
    (findStart [⟨.End, 8 * 3600, 900⟩, ⟨.Start, 9 * 3600, 900⟩,
                ⟨.End, 10 * 3600, 900⟩]
       = some (⟨.Start, 9 * 3600, 900⟩, [⟨.End, 10 * 3600, 900⟩]) ∧
     get_times [⟨.End, 10 * 3600, 900⟩] (9 * 3600)
       = ([⟨9 * 3600, 10 * 3600⟩], none) ∧
     showDay false "acme" ⟨2024, 3, 1⟩
        [⟨.End, 8 * 3600, 900⟩, ⟨.Start, 9 * 3600, 900⟩,
         ⟨.End, 10 * 3600, 900⟩]
       = (["2024-03-01 (1h0min):", "  - 09:00 - 10:00"], [])) ∧
    (∀ (decimal : Bool) (project : String) (date : Date)
        (day : List TimeStamp),
        (∀ ts ∈ day, ts.is_start = false) →
        showDay decimal project date day
          = ([], ["day " ++ date.render ++ " is present in " ++ project
                   ++ " but was empty"])) ∧
    (∀ (decimal : Bool) (project : String) (date : Date)
        (day : List TimeStamp) (rest : Project),
        (∀ ts ∈ day, ts.is_start = false) →
        showProject decimal project ((date, day) :: rest)
          = ((showProject decimal project rest).1,
             ("day " ++ date.render ++ " is present in " ++ project
               ++ " but was empty") :: (showProject decimal project rest).2)) := by
  refine ⟨⟨by decide, ?_, ?_⟩, ?_, ?_⟩
  · simp [get_times, findStart, TimeStamp.is_start]
  · have hgt : get_times [⟨.End, 10 * 3600, 900⟩] (9 * 3600)
        = ([⟨9 * 3600, 10 * 3600⟩], none) := by
      simp [get_times, findStart, TimeStamp.is_start]
    simp [showDay, findStart, TimeStamp.is_start, hgt]
    constructor
    · decide
    · decide
  · intro decimal project date day h
    simp [showDay, findStart_eq_none day h]
  · intro decimal project date day rest h
    simp [showProject, showDay, findStart_eq_none day h]

/-- closed instance of `show_day_spec`. -/
theorem show_day_spec_witness :
    showDay false "acme" ⟨2024, 3, 1⟩ [⟨.End, 100, 900⟩]
      = ([], ["day 2024-03-01 is present in acme but was empty"]) := by
  have h := show_day_spec.2.1 false "acme" ⟨2024, 3, 1⟩ [⟨.End, 100, 900⟩]
    (by decide)
  rw [h]
  decide

/-- C6: reporting a project that is absent from the log fails with the
"not present" message, which names the project, before any output line
is produced. -/
theorem show_project_not_found (log : Log) (project : String)
    (decimal : Bool) (h : log.lookup project = none) :
    show' log project decimal
      = .error ("project " ++ project ++ " is not present in log file") := by
  simp [show', h]

/-- closed instance of `show_project_not_found`. -/
theorem show_project_not_found_witness :
    show' [("other", [])] "acme" false
      = .error ("project " ++ "acme" ++ " is not present in log file") :=
  show_project_not_found [("other", [])] "acme" false (by rfl)

/-! Snapshot-handling theorems (claim C7). -/

/-- counterexample to the claim that an absent snapshot is treated as
an empty log by both operations: the reporting arm of `main` opens the
snapshot with `File::open(path)?` and fails outright when the file is
absent, producing no report. -/
theorem mainShow_absent_counterexample :
    mainShow .absent "acme" false
      = .error "No such file or directory (os error 2)" := rfl

/-- C7 (amended): the recording operation treats an absent snapshot as
the empty log, proceeds, and only records the low-severity "file was
empty, using default" notice; the reporting operation instead fails
with the file-open error when no snapshot exists. -/
theorem absent_snapshot (project : String) (date : Date) (time : Time)
    (decimal : Bool) :
    mainRecord .absent project date time
      = .ok ([(project, [(date, [⟨.Start, time, 900⟩])])],
             ["file was empty, using default"]) ∧
    mainShow .absent project decimal
      = .error "No such file or directory (os error 2)" := by
  constructor
  · simp [mainRecord, Record.openFile, Record.insert, updateEntry,
          updateEntryD, insertDay]
  · rfl

/-! Duration rendering theorems (claim C8). -/

/-- C8: the human renderer omits the hour segment exactly when the
truncating whole-hour count is zero and otherwise writes `"<hours>h"`,
and always writes `"<total minutes mod 60>min"` with truncating
division and remainder; a 90-minute span renders `"1h30min"` and a
45-minute span `"45min"`. -/
theorem myDuration_render_spec (d : Int) :
    (num_hours d = 0 →
        MyDuration.render d
          = toString (Int.tmod (num_minutes d) 60) ++ "min") ∧
    (num_hours d ≠ 0 →
        MyDuration.render d
          = toString (num_hours d) ++ "h"
              ++ (toString (Int.tmod (num_minutes d) 60) ++ "min")) ∧
    MyDuration.render (90 * 60) = "1h30min" ∧
    MyDuration.render (45 * 60) = "45min" := by
  refine ⟨?_, ?_, by decide, by decide⟩
  · intro h
    simp [MyDuration.render, h]
  · intro h
    simp [MyDuration.render, h, String.append_assoc]

/-- closed instances of `myDuration_render_spec`. -/
theorem myDuration_render_spec_witness :
    MyDuration.render 0 = "0min" ∧
    MyDuration.render (-(90 * 60))
      = toString (num_hours (-(90 * 60))) ++ "h"
          ++ (toString (Int.tmod (num_minutes (-(90 * 60))) 60) ++ "min") := by
  constructor
  · have h := (myDuration_render_spec 0).1 (by decide)
    rw [h]
    decide
  · exact (myDuration_render_spec (-(90 * 60))).2.1 (by decide)

/-! Template formatter theorems (claims C9, C10). -/

theorem directive_none (self : Formatter) (c : Char)
    (h : c ∉ ['%', 'd', 'Y', 'M', 'D', 't', 'h', 'm', 'P']) :
    self.directive c = none := by
  simp at h
  unfold Formatter.directive
  split <;> simp_all

/-- C9: template expansion copies non-`%` characters unchanged,
substitutes the nine recognized directives (`%%`, `%d`, `%Y`, `%M`,
`%D`, `%t`, `%h`, `%m`, `%P`), fails on any other character after `%`,
and renders `"%d %P: %h h %m m (%t)"` at date 2024-03-01, project
`"acme"` and a 90-minute span to `"2024-03-01 acme: 1 h 90 m (1.50)"`. -/
theorem formatter_render_spec :
    (Formatter.mk ⟨2024, 3, 1⟩ (90 * 60) "%d %P: %h h %m m (%t)" "acme").render
        = .ok "2024-03-01 acme: 1 h 90 m (1.50)" ∧
    (∀ (d : Date) (dur : Int) (p : String),
        (Formatter.mk d dur "%%" p).render = .ok "%" ∧
        (Formatter.mk d dur "%d" p).render = .ok d.render ∧
        (Formatter.mk d dur "%Y" p).render = .ok (pad4 d.year) ∧
        (Formatter.mk d dur "%M" p).render = .ok (pad2 d.month) ∧
        (Formatter.mk d dur "%D" p).render = .ok (pad2 d.day) ∧
        (Formatter.mk d dur "%t" p).render = .ok (DecimalDuration.render dur) ∧
        (Formatter.mk d dur "%h" p).render = .ok (toString (num_hours dur)) ∧
        (Formatter.mk d dur "%m" p).render
          = .ok (toString (num_minutes dur)) ∧
        (Formatter.mk d dur "%P" p).render = .ok p) ∧
    (∀ (d : Date) (dur : Int) (p : String) (c : Char),
        c ∉ ['%', 'd', 'Y', 'M', 'D', 't', 'h', 'm', 'P'] →
        (Formatter.mk d dur (String.mk ['%', c]) p).render = .error ()) ∧
    (∀ (d : Date) (dur : Int) (p : String) (c : Char), c ≠ '%' →
        (Formatter.mk d dur (String.mk [c]) p).render
          = .ok (String.mk [c])) := by
  refine ⟨by rfl, ?_, ?_, ?_⟩
  · intro d dur p
    refine ⟨rfl, ?_, ?_, ?_, ?_, ?_, ?_, ?_, ?_⟩ <;>
      simp [Formatter.render, Formatter.fmtChars, Formatter.directive,
            List.asString, Except.map]
  · intro d dur p c h
    have hd : (Formatter.mk d dur (String.mk ['%', c]) p).directive c = none :=
      directive_none _ c h
    simp [Formatter.render, Formatter.fmtChars, hd, Except.map]
  · intro d dur p c h
    simp [Formatter.render, Formatter.fmtChars, h, List.asString, Except.map]

/-- closed instances of `formatter_render_spec`. -/
theorem formatter_render_spec_witness :
    (Formatter.mk ⟨2024, 3, 1⟩ (90 * 60) (String.mk ['%', 'x']) "acme").render
        = .error () ∧
    (Formatter.mk ⟨2024, 3, 1⟩ (90 * 60) (String.mk ['a']) "acme").render
        = .ok (String.mk ['a']) := by
  constructor
  · exact formatter_render_spec.2.2.1 ⟨2024, 3, 1⟩ (90 * 60) "acme" 'x'
      (by decide)
  · exact formatter_render_spec.2.2.2 ⟨2024, 3, 1⟩ (90 * 60) "acme" 'a'
      (by decide)

theorem fmtChars_append (self : Formatter) :
    ∀ (n : Nat) (s t o : List Char), s.length ≤ n →
      self.fmtChars s = .ok o →
      self.fmtChars (s ++ t) = (self.fmtChars t).map (o ++ ·) := by
  intro n
  induction n with
  | zero =>
    intro s t o hlen h
    have hs : s = [] := List.eq_nil_of_length_eq_zero (Nat.le_zero.mp hlen)
    subst hs
    simp [Formatter.fmtChars] at h
    subst h
    cases hft : self.fmtChars t <;> simp [hft, Except.map]
  | succ n ih =>
    intro s t o hlen h
    cases s with
    | nil =>
      simp [Formatter.fmtChars] at h
      subst h
      cases hft : self.fmtChars t <;> simp [hft, Except.map]
    | cons c s1 =>
      by_cases hc : c = '%'
      · subst hc
        cases s1 with
        | nil =>
          rw [Formatter.fmtChars.eq_def] at h
          simp at h
        | cons d1 s2 =>
          cases hd : self.directive d1 with
          | none =>
            have hstep0 : self.fmtChars ('%' :: d1 :: s2) = .error () := by
              rw [Formatter.fmtChars.eq_def]
              simp [hd]
            rw [hstep0] at h
            simp at h
          | some out =>
            have hstep0 : self.fmtChars ('%' :: d1 :: s2)
                = (self.fmtChars s2).map (out ++ ·) := by
              rw [Formatter.fmtChars.eq_def]
              simp [hd]
            rw [hstep0] at h
            cases hs2 : self.fmtChars s2 with
            | error e => rw [hs2] at h; simp [Except.map] at h
            | ok o2 =>
              rw [hs2] at h
              simp [Except.map] at h
              have hrec : self.fmtChars (s2 ++ t)
                  = (self.fmtChars t).map (o2 ++ ·) := by
                apply ih s2 t o2 _ hs2
                simp at hlen
                omega
              have hstep : self.fmtChars ('%' :: d1 :: (s2 ++ t))
                  = (self.fmtChars (s2 ++ t)).map (out ++ ·) := by
                rw [Formatter.fmtChars.eq_def]
                simp [hd]
              rw [List.cons_append, List.cons_append, hstep, hrec]
              cases hft : self.fmtChars t <;>
                simp [hft, Except.map, ← h, List.append_assoc]
      · have hstep0 : self.fmtChars (c :: s1)
            = (self.fmtChars s1).map (c :: ·) := by
          rw [Formatter.fmtChars.eq_def]
          simp [hc]
        rw [hstep0] at h
        cases hs1 : self.fmtChars s1 with
        | error e => rw [hs1] at h; simp [Except.map] at h
        | ok o1 =>
          rw [hs1] at h
          simp [Except.map] at h
          have hrec : self.fmtChars (s1 ++ t)
              = (self.fmtChars t).map (o1 ++ ·) := by
            apply ih s1 t o1 _ hs1
            simp at hlen
            omega
          have hstep : self.fmtChars (c :: (s1 ++ t))
              = (self.fmtChars (s1 ++ t)).map (c :: ·) := by
            rw [Formatter.fmtChars.eq_def]
            simp [hc]
          rw [List.cons_append, hstep, hrec]
          cases hft : self.fmtChars t <;> simp [hft, Except.map, ← h]

/-- C10: a template whose final character is a bare `%` (the scan of
everything before it succeeds, and then `%` is the last character) is
rejected with a formatting error: the `chars.next()` after `%` returns
`None`, which falls into the error arm, rather than emitting the `%`
or ignoring it. -/
theorem render_trailing_percent (d0 : Date) (dur : Int) (fmt p : String)
    (o : List Char)
    (h : (Formatter.mk d0 dur (fmt ++ "%") p).fmtChars fmt.data = .ok o) :
    (Formatter.mk d0 dur (fmt ++ "%") p).render = .error () := by
  unfold Formatter.render
  have hdata : (Formatter.mk d0 dur (fmt ++ "%") p).format.data
      = fmt.data ++ ['%'] := rfl
  rw [hdata]
  rw [fmtChars_append _ fmt.data.length fmt.data ['%'] o (Nat.le_refl _) h]
  rfl

/-- closed instance of `render_trailing_percent`. -/
theorem render_trailing_percent_witness :
    (Formatter.mk ⟨2024, 3, 1⟩ (90 * 60) ("abc" ++ "%") "acme").render
      = .error () :=
  render_trailing_percent ⟨2024, 3, 1⟩ (90 * 60) "abc" "acme"
    ['a', 'b', 'c'] (by rfl)

end RecordHours
